import Mathlib

/-!
Verification of the event-study analytics engine of tradepal-ai
(`backend/utils/event_study.py`), against its natural-language spec.

Modelling conventions:
* Calendar dates are integers (days since an arbitrary epoch); adding a
  calendar-day offset is integer addition.  The Python code converts a
  `Timestamp` to a `"YYYY-MM-DD"` string and back when re-aligning window
  endpoints; at day granularity this round trip is the identity, so the
  model keeps plain integers.
* Prices and returns are exact rationals (`Rat`); the float `NaN` used by
  the Python code for a missing value is modelled as `Option.none`.
* A pandas `DataFrame` with a `DatetimeIndex` and `price`/`ret` columns is
  a `List Bar`; its index is `List.map Bar.date`.
* Randomness (`np.random.choice`) is modelled by a `sampler` parameter
  giving, for each bootstrap iteration, the list of positions drawn.
-/

namespace EventStudy

/-- One provider bar before the `ret` column is derived: a date and a
closing price (`price` column of the DataFrame). -/
structure RawBar where
  date : Int
  close : Rat
deriving DecidableEq

/-- One row of the price DataFrame produced by `fetch_prices`: date,
`price` column, and derived `ret` column (`None` on the first row,
mirroring the `NaN` produced by `pct_change`). -/
structure Bar where
  date : Int
  price : Rat
  ret : Option Rat
deriving DecidableEq

/-- `price_series.loc[d]` / membership lookup: the price stored at date
`d`, first match (the DataFrame of the spec has unique dates). -/
def lookup (s : List Bar) (d : Int) : Option Rat :=
  (s.find? (fun b => b.date = d)).map Bar.price

/-- `EventStudyService.get_trading_date_index`: if the target date is in
the index return it, otherwise return the last index entry that is `≤`
the target (`earlier[-1]`), or `none` when no entry is `≤` the target. -/
def get_trading_date_index (idx : List Int) (d : Int) : Option Int :=
  if d ∈ idx then some d
  else (idx.filter (fun x => decide (x ≤ d))).getLast?

/-- `EventStudyService.calc_cumret`: `none` if either date is missing from
the series, `none` on a zero start price, else `p1 / p0 - 1`. -/
def calc_cumret (s : List Bar) (start_date end_date : Int) : Option Rat :=
  match lookup s start_date, lookup s end_date with
  | some p0, some p1 => if p0 = 0 then none else some (p1 / p0 - 1)
  | _, _ => none

/-- `EventStudyService.event_window_return`: align the event date, add the
window offsets to the aligned anchor, re-align both endpoints, then take
the cumulative return between the aligned endpoints. -/
def event_window_return (s : List Bar) (event_date : Int) (w : Int × Int) :
    Option Rat :=
  match get_trading_date_index (s.map Bar.date) event_date with
  | none => none
  | some ev_trade =>
    match get_trading_date_index (s.map Bar.date) (ev_trade + w.1),
          get_trading_date_index (s.map Bar.date) (ev_trade + w.2) with
    | some start_trade, some end_trade => calc_cumret s start_trade end_trade
    | _, _ => none

/-- Spec-side model of §4.3 `windowReturn`, written from the spec's words
for the refinement claim: anchor-align, offset from the anchor, align both
endpoints, guard the zero start close, return `close[end]/close[start]-1`.
(The spec's `close[·]` lookup at an aligned date is `lookup`; alignment
always returns a member of the index, so the lookups cannot fail.) -/
def windowReturn_specModel (s : List Bar) (event_date : Int)
    (w : Int × Int) : Option Rat :=
  match get_trading_date_index (s.map Bar.date) event_date with
  | none => none
  | some anchor =>
    match get_trading_date_index (s.map Bar.date) (anchor + w.1) with
    | none => none
    | some start_date =>
      match get_trading_date_index (s.map Bar.date) (anchor + w.2) with
      | none => none
      | some end_date =>
        match lookup s start_date, lookup s end_date with
        | some p0, some p1 => if p0 = 0 then none else some (p1 / p0 - 1)
        | _, _ => none

/-- In a strictly sorted list, the last element bounds every member. -/
lemma sorted_getLast?_le {l : List Int} (hs : l.Pairwise (· < ·)) {x : Int}
    (h : l.getLast? = some x) : ∀ y ∈ l, y ≤ x := by
  induction l with
  | nil => simp at h
  | cons a t ih =>
    cases t with
    | nil =>
      rw [List.getLast?_singleton] at h
      intro y hy
      rcases List.mem_singleton.mp hy with rfl
      injection h with h
      omega
    | cons b t2 =>
      rw [List.getLast?_cons_cons] at h
      rcases List.pairwise_cons.mp hs with ⟨ha, hs2⟩
      intro y hy
      rcases List.mem_cons.mp hy with rfl | hy2
      · exact le_of_lt (ha x (List.mem_of_mem_getLast? h))
      · exact ih hs2 h y hy2

/-- Characterisation of `get_trading_date_index` on a sorted index: it
returns `x` exactly when `x` is the greatest index entry `≤ d`. -/
lemma align_eq_some_iff {idx : List Int} (hs : idx.Pairwise (· < ·))
    (d x : Int) :
    get_trading_date_index idx d = some x ↔
      x ∈ idx ∧ x ≤ d ∧ ∀ y ∈ idx, y ≤ d → y ≤ x := by
  unfold get_trading_date_index
  by_cases hd : d ∈ idx
  · simp only [hd, if_true, Option.some.injEq]
    constructor
    · rintro rfl
      exact ⟨hd, le_refl d, fun y _ hy => hy⟩
    · rintro ⟨hx, hxd, hmax⟩
      exact le_antisymm (hmax d hd (le_refl d)) hxd
  · simp only [hd, if_false]
    constructor
    · intro h
      have hxf : x ∈ idx.filter (fun y => decide (y ≤ d)) :=
        List.mem_of_mem_getLast? h
      rcases List.mem_filter.mp hxf with ⟨hxi, hxd⟩
      refine ⟨hxi, by simpa using hxd, ?_⟩
      intro y hy hyd
      have hyf : y ∈ idx.filter (fun y => decide (y ≤ d)) :=
        List.mem_filter.mpr ⟨hy, by simpa using hyd⟩
      exact sorted_getLast?_le (hs.filter _) h y hyf
    · rintro ⟨hx, hxd, hmax⟩
      have hxf : x ∈ idx.filter (fun y => decide (y ≤ d)) :=
        List.mem_filter.mpr ⟨hx, by simpa using hxd⟩
      have hne : idx.filter (fun y => decide (y ≤ d)) ≠ [] :=
        List.ne_nil_of_mem hxf
      rcases Option.ne_none_iff_exists'.mp
        (fun hn => hne (List.getLast?_eq_none_iff.mp hn)) with ⟨z, hz⟩
      rcases List.mem_filter.mp (List.mem_of_mem_getLast? hz) with ⟨hzi, hzd⟩
      have hzx : z ≤ x := hmax z hzi (by simpa using hzd)
      have hxz : x ≤ z := sorted_getLast?_le (hs.filter _) hz x hxf
      rw [hz]
      exact congrArg some (le_antisymm hzx hxz)

/-- `get_trading_date_index` returns `none` exactly when every index entry
is strictly after the target (no sortedness needed). -/
lemma align_eq_none_iff (idx : List Int) (d : Int) :
    get_trading_date_index idx d = none ↔ ∀ y ∈ idx, d < y := by
  unfold get_trading_date_index
  by_cases hd : d ∈ idx
  · simp only [hd, if_true]
    constructor
    · intro h; exact absurd h (by simp)
    · intro h; exact absurd (h d hd) (lt_irrefl d)
  · simp only [hd, if_false, List.getLast?_eq_none_iff,
      List.filter_eq_nil_iff]
    constructor
    · intro h y hy
      have := h y hy
      simp only [decide_eq_true_eq] at this
      omega
    · intro h y hy
      simp only [decide_eq_true_eq]
      exact not_le.mpr (h y hy)

/-- A defined alignment never looks forward (no sortedness needed). -/
lemma align_le {idx : List Int} {d x : Int}
    (h : get_trading_date_index idx d = some x) : x ≤ d := by
  unfold get_trading_date_index at h
  by_cases hd : d ∈ idx
  · simp only [hd, if_true, Option.some.injEq] at h
    omega
  · simp only [hd, if_false] at h
    rcases List.mem_filter.mp (List.mem_of_mem_getLast? h) with ⟨-, hxd⟩
    simpa using hxd

/-- Claim C2: on a (strictly date-sorted) price series index, alignment
returns the target itself when present, otherwise the greatest index date
`≤` the target; it returns `none` exactly when the target predates the
whole series; and any defined result is `≤` the target. -/
theorem c2_align_backward_greatest (idx : List Int) (d : Int)
    (hs : List.Sorted (· < ·) idx) :
    (d ∈ idx → get_trading_date_index idx d = some d) ∧
    (∀ x, get_trading_date_index idx d = some x →
      x ∈ idx ∧ x ≤ d ∧ ∀ y ∈ idx, y ≤ d → y ≤ x) ∧
    (get_trading_date_index idx d = none ↔ ∀ y ∈ idx, d < y) := by
  refine ⟨fun hd => ?_, fun x hx => (align_eq_some_iff hs d x).mp hx,
    align_eq_none_iff idx d⟩
  exact (align_eq_some_iff hs d d).mpr ⟨hd, le_refl d, fun y _ hy => hy⟩

/-- Witness for C2 at a concrete sorted series index. -/
theorem c2_align_backward_greatest_witness :
    get_trading_date_index [(1 : Int), 3] 3 = some 3 :=
  (c2_align_backward_greatest [(1 : Int), 3] 3 (by decide)).1 (by decide)

/-- Claim C4: alignment is monotone on a sorted series index — if
`d1 ≤ d2` and both alignments are defined, the results are ordered. -/
theorem c4_align_monotone (idx : List Int) (d1 d2 : Int)
    (hs : List.Sorted (· < ·) idx) (h12 : d1 ≤ d2) (x1 x2 : Int)
    (h1 : get_trading_date_index idx d1 = some x1)
    (h2 : get_trading_date_index idx d2 = some x2) : x1 ≤ x2 := by
  rcases (align_eq_some_iff hs d1 x1).mp h1 with ⟨hm1, hle1, -⟩
  rcases (align_eq_some_iff hs d2 x2).mp h2 with ⟨-, -, hmax2⟩
  exact hmax2 x1 hm1 (le_trans hle1 h12)

/-- Witness for C4 at a concrete sorted series index. -/
theorem c4_align_monotone_witness :
    get_trading_date_index [(1 : Int), 3] 2 = some 1 ∧
    get_trading_date_index [(1 : Int), 3] 3 = some 3 ∧ (1 : Int) ≤ 3 :=
  ⟨by decide, by decide,
    c4_align_monotone [(1 : Int), 3] 2 3 (by decide) (by decide) 1 3
      (by decide) (by decide)⟩

/-- Claim C1: `event_window_return` applies the window offsets to the
aligned anchor trading day, not to the raw event date — it coincides with
the spec-side `windowReturn_specModel` on every input; and on the series
with bars only on 2020-09-18 (close 300) and 2020-09-21 (close 303)
(encoded as days 18 and 21 of that month), event date 2020-09-19 and
window `(0, 3)` yield exactly `303/300 - 1 = 1/100`. -/
theorem c1_offsets_applied_to_aligned_anchor :
    (∀ (s : List Bar) (event_date : Int) (w : Int × Int),
      event_window_return s event_date w =
        windowReturn_specModel s event_date w) ∧
    event_window_return
      [⟨18, 300, none⟩, ⟨21, 303, none⟩] 19 (0, 3) = some (1 / 100) := by
  constructor
  · intro s ev w
    unfold event_window_return windowReturn_specModel
    cases get_trading_date_index (s.map Bar.date) ev with
    | none => rfl
    | some anchor =>
      dsimp only
      cases get_trading_date_index (s.map Bar.date) (anchor + w.1) with
      | none =>
        cases get_trading_date_index (s.map Bar.date) (anchor + w.2) with
        | none => rfl
        | some e => rfl
      | some st =>
        cases get_trading_date_index (s.map Bar.date) (anchor + w.2) with
        | none => rfl
        | some e => rfl
  · have h : event_window_return
        [⟨18, 300, none⟩, ⟨21, 303, none⟩] 19 (0, 3) =
        some ((303 : Rat) / 300 - 1) := by
      simp [event_window_return, get_trading_date_index, calc_cumret, lookup,
        List.find?, List.filter, List.getLast?]
    rw [h]
    norm_num

/-- Claim C10: inverted windows (`start_offset > end_offset`) are not
validated: whenever the three alignments succeed and the close at the
aligned start date is nonzero, `event_window_return` still returns
`close[end] / close[start] - 1`, the same formula as for ordered
windows. -/
theorem c10_inverted_window_no_validation
    (s : List Bar) (event_date : Int) (a b : Int) (_h_inv : b < a)
    (anchor st en : Int) (p0 p1 : Rat)
    (h1 : get_trading_date_index (s.map Bar.date) event_date = some anchor)
    (h2 : get_trading_date_index (s.map Bar.date) (anchor + a) = some st)
    (h3 : get_trading_date_index (s.map Bar.date) (anchor + b) = some en)
    (hp0 : lookup s st = some p0) (hp0ne : p0 ≠ 0)
    (hp1 : lookup s en = some p1) :
    event_window_return s event_date (a, b) = some (p1 / p0 - 1) := by
  simp only [event_window_return, h1, h2, h3, calc_cumret, hp0, hp1]
  simp [hp0ne]

/-- Witness for C10: the worked series with the window inverted to
`(3, 0)` yields `300/303 - 1`. -/
theorem c10_inverted_window_no_validation_witness :
    event_window_return
      [⟨18, 300, none⟩, ⟨21, 303, none⟩] 19 (3, 0) =
      some ((300 : Rat) / 303 - 1) :=
  c10_inverted_window_no_validation
    [⟨18, 300, none⟩, ⟨21, 303, none⟩] 19 3 0 (by decide) 18 21 18 303 300
    (by decide) (by decide) (by decide) (by decide) (by decide) (by decide)

/-- `np.mean` of a nonempty list of rationals (the empty case, `NaN` in
numpy, is guarded explicitly at each use site of `bootstrap_pvals`). -/
def listMean (l : List Rat) : Rat := l.sum / l.length

/-- The `boot_means` array built by the resampling loop of
`EventStudyService.bootstrap_pvals`: for each of `nboot` iterations, the
mean of the resample drawn by `np.random.choice` (modelled by `sampler`,
which yields the positions drawn from `a`). -/
def boot_means (a : List Rat) (nboot : Nat) (sampler : Nat → List Nat) :
    List Rat :=
  (List.range nboot).map (fun k => listMean ((sampler k).map
    (fun i => a.getD i 0)))

/-- `EventStudyService.bootstrap_pvals`: drop `NaN` entries, return `NaN`
for fewer than two remaining values, otherwise the fraction of bootstrap
means whose absolute value is `≥` the absolute observed mean.  (`nboot =
0` makes `np.mean` of an empty array `NaN`, modelled as `none`.) -/
def bootstrap_pvals (arr : List (Option Rat)) (nboot : Nat)
    (sampler : Nat → List Nat) : Option Rat :=
  if (arr.filterMap id).length < 2 then none
  else if nboot = 0 then none
  else
    some ((((boot_means (arr.filterMap id) nboot sampler).filter
        (fun m => decide (|listMean (arr.filterMap id)| ≤ |m|))).length
      : Rat) / (nboot : Rat))

/-- Dropping `NaN`s from an all-`some` constant array keeps every entry. -/
lemma filterMap_id_replicate (n : Nat) (c : Rat) :
    (List.replicate n (some c)).filterMap id = List.replicate n c := by
  induction n with
  | zero => rfl
  | succ m ih => simp [List.replicate_succ, ih]

/-- The mean of a nonempty constant list is the constant. -/
lemma listMean_replicate (n : Nat) (hn : n ≠ 0) (c : Rat) :
    listMean (List.replicate n c) = c := by
  unfold listMean
  rw [List.sum_replicate, List.length_replicate, nsmul_eq_mul]
  exact mul_div_cancel_left₀ c (Nat.cast_ne_zero.mpr hn)

/-- Claim C3: on a constant array of `n ≥ 2` entries all equal to the same
nonzero value, `bootstrap_pvals` returns exactly `1`, for every
`nboot ≥ 1` and every run of the resampler (every resample drawn by
`np.random.choice` has the array's own size and draws valid positions). -/
theorem c3_bootstrap_constant_is_one
    (c : Rat) (n nboot : Nat) (sampler : Nat → List Nat)
    (_hc : c ≠ 0) (hn : 2 ≤ n) (hb : 1 ≤ nboot)
    (hs : ∀ k, k < nboot →
      (sampler k).length = n ∧ ∀ i ∈ sampler k, i < n) :
    bootstrap_pvals (List.replicate n (some c)) nboot sampler = some 1 := by
  unfold bootstrap_pvals
  rw [filterMap_id_replicate]
  rw [if_neg (by simp; omega), if_neg (by omega)]
  have hobs : listMean (List.replicate n c) = c :=
    listMean_replicate n (by omega) c
  have hmeans : ∀ m ∈ boot_means (List.replicate n c) nboot sampler,
      m = c := by
    intro m hm
    unfold boot_means at hm
    rcases List.mem_map.mp hm with ⟨k, hk, rfl⟩
    have hkn : k < nboot := List.mem_range.mp hk
    rcases hs k hkn with ⟨hlenk, hboundk⟩
    have hmap : (sampler k).map (fun i => (List.replicate n c).getD i 0) =
        List.replicate n c := by
      rw [List.eq_replicate_iff]
      refine ⟨by simp [hlenk], ?_⟩
      intro b hb2
      rcases List.mem_map.mp hb2 with ⟨i, hi, rfl⟩
      have hilt : i < n := hboundk i hi
      simp [List.getD, List.getElem?_replicate, hilt]
    rw [hmap, hobs]
  have hfilter : (boot_means (List.replicate n c) nboot sampler).filter
      (fun m => decide (|listMean (List.replicate n c)| ≤ |m|)) =
      boot_means (List.replicate n c) nboot sampler := by
    apply List.filter_eq_self.mpr
    intro m hm
    rw [hmeans m hm, hobs]
    simp
  rw [hfilter]
  have hblen : (boot_means (List.replicate n c) nboot sampler).length =
      nboot := by
    unfold boot_means
    simp
  rw [hblen]
  rw [div_self (by exact_mod_cast Nat.pos_iff_ne_zero.mp (by omega))]

/-- Witness for C3: the constant array `[5, 5]`, one bootstrap iteration
drawing both positions. -/
theorem c3_bootstrap_constant_is_one_witness :
    bootstrap_pvals (List.replicate 2 (some (5 : Rat))) 1
      (fun _ => [0, 1]) = some 1 :=
  c3_bootstrap_constant_is_one 5 2 1 (fun _ => [0, 1]) (by norm_num)
    (by omega) (by omega)
    (fun k _ => ⟨rfl, by intro i hi; simp at hi; omega⟩)

/-- Claim C8: `bootstrap_pvals` is a total function that only ever returns
a value in `[0, 1]` or `none`; and once `NaN`s are dropped, fewer than two
remaining values give `none` regardless of `nboot`. -/
theorem c8_bootstrap_range_and_insufficient
    (arr : List (Option Rat)) (nboot : Nat) (sampler : Nat → List Nat) :
    (∀ p, bootstrap_pvals arr nboot sampler = some p → 0 ≤ p ∧ p ≤ 1) ∧
    ((arr.filterMap id).length < 2 →
      bootstrap_pvals arr nboot sampler = none) := by
  constructor
  · intro p hp
    unfold bootstrap_pvals at hp
    by_cases h1 : (arr.filterMap id).length < 2
    · simp [h1] at hp
    · by_cases h2 : nboot = 0
      · simp [h1, h2] at hp
      · simp only [h1, if_false, h2, Option.some.injEq] at hp
        subst hp
        constructor
        · exact div_nonneg (Nat.cast_nonneg _) (Nat.cast_nonneg _)
        · rw [div_le_one (by exact_mod_cast Nat.pos_of_ne_zero h2)]
          have hcount : ((boot_means (arr.filterMap id) nboot
              sampler).filter (fun m =>
                decide (|listMean (arr.filterMap id)| ≤ |m|))).length ≤
              nboot := by
            refine le_trans (List.length_filter_le _ _) ?_
            unfold boot_means
            simp
          exact_mod_cast hcount
  · intro h
    unfold bootstrap_pvals
    rw [if_pos h]

/-- Witness for C8: a two-value array gives a probability in range; a
single-value array gives `none`. -/
theorem c8_bootstrap_range_and_insufficient_witness :
    ((0 : Rat) ≤ 1 ∧ (1 : Rat) ≤ 1) ∧
    bootstrap_pvals [some (1 : Rat)] 5 (fun _ => [0]) = none :=
  ⟨(c8_bootstrap_range_and_insufficient [some 1, some 1] 1
      (fun _ => [0, 1])).1 1
      (by norm_num [bootstrap_pvals, boot_means, listMean,
        List.filterMap_cons, List.getD_cons_zero, List.getD_cons_succ]),
   (c8_bootstrap_range_and_insufficient [some (1 : Rat)] 5
      (fun _ => [0])).2 (by decide)⟩

/-- `df['price'].pct_change()`: the derived `ret` column is positional —
each row's return is computed against the immediately preceding row,
whatever its date; `prev` carries the previous row's close. -/
def addRetAux (prev : Option Rat) : List RawBar → List Bar
  | [] => []
  | b :: rest =>
    ⟨b.date, b.close, prev.map (fun p => b.close / p - 1)⟩ ::
      addRetAux (some b.close) rest

/-- Attach the derived `ret` column to a provider result. -/
def addRet (l : List RawBar) : List Bar := addRetAux none l

/-- Method 1 of `fetch_prices` (period bucket): only attempted when the
span is at most 365 days; the provider's period-based response is filtered
to the exact `[start, end]` range.  Provider exceptions and empty
responses are both modelled as an empty bar list. -/
def method1Bars (startD endD : Int) (p1 : List RawBar) : List RawBar :=
  if endD - startD ≤ 365 then
    p1.filter (fun b => decide (startD ≤ b.date) && decide (b.date ≤ endD))
  else []

/-- The chunk loop of method 3 (`stock_data_service` fallback): starting
at `cs`, fetch `[cs, min (cs + 365) endD]` from the secondary provider and
continue from the day after the chunk end, concatenating all prices.
A chunk-level error dict simply contributes no prices. -/
def collectChunks (p3 : Int → Int → List RawBar) (cs endD : Int) :
    List RawBar :=
  if _h : cs < endD then
    p3 cs (min (cs + 365) endD) ++
      collectChunks p3 (min (cs + 365) endD + 1) endD
  else []
termination_by (endD - cs).toNat
decreasing_by omega

/-- The part of the `ValueError` message raised by `fetch_prices` that
names the requested symbol and date range. -/
def noDataMsgHead (ticker : String) (startD endD : Int) : String :=
  "No data returned for " ++ ticker ++ " from " ++ toString startD ++
    " to " ++ toString endD ++
    ". This may be due to network issues, rate limiting, or invalid date range. "

/-- The retry guidance in the `fetch_prices` failure message. -/
def retryGuidance : String :=
  "Please try again in a few moments or check your internet connection."

/-- The full `ValueError` message raised when every method fails. -/
def noDataMsg (ticker : String) (startD endD : Int) : String :=
  noDataMsgHead ticker startD endD ++ retryGuidance

/-- `EventStudyService.fetch_prices`, with each upstream response injected
as a parameter: `p1` is method 1's period-bucket response, `p2a`/`p2b` the
two exact-range download attempts (a raised exception is modelled as an
empty response, which the code treats identically: it falls through), and
`p3` the secondary provider's per-chunk responses.  The first method that
produces a non-empty series wins; its bars are returned in provider order
with the derived `ret` column; if all fail, the `ValueError` is raised. -/
def fetch_prices (ticker : String) (startD endD : Int)
    (p1 p2a p2b : List RawBar) (p3 : Int → Int → List RawBar) :
    Except String (List Bar) :=
  if method1Bars startD endD p1 ≠ [] then
    .ok (addRet (method1Bars startD endD p1))
  else if p2a ≠ [] then .ok (addRet p2a)
  else if p2b ≠ [] then .ok (addRet p2b)
  else if collectChunks p3 startD endD ≠ [] then
    .ok (addRet (collectChunks p3 startD endD))
  else .error (noDataMsg ticker startD endD)

/-- The derived-return invariant of a price DataFrame: `ret` is missing on
the first row and equals `price[i] / price[i-1] - 1` on every later row. -/
def retOk (l : List Bar) : Prop :=
  (∀ b, l[0]? = some b → b.ret = none) ∧
  ∀ i a b, l[i]? = some a → l[i + 1]? = some b →
    b.ret = some (b.price / a.price - 1)

/-- The first row of `addRetAux prev raw` takes its return against
`prev`. -/
lemma addRetAux_first (raw : List RawBar) (prev : Option Rat) (b : Bar)
    (h : (addRetAux prev raw)[0]? = some b) :
    b.ret = prev.map (fun p => b.price / p - 1) := by
  cases raw with
  | nil => simp [addRetAux] at h
  | cons x rest =>
    simp only [addRetAux, List.getElem?_cons_zero, Option.some.injEq] at h
    subst h
    rfl

/-- Consecutive rows of `addRetAux` satisfy the positional return
formula. -/
lemma addRetAux_consec (raw : List RawBar) (prev : Option Rat)
    (i : Nat) (a b : Bar)
    (ha : (addRetAux prev raw)[i]? = some a)
    (hb : (addRetAux prev raw)[i + 1]? = some b) :
    b.ret = some (b.price / a.price - 1) := by
  induction raw generalizing prev i with
  | nil => simp [addRetAux] at ha
  | cons x rest ih =>
    cases i with
    | zero =>
      simp only [addRetAux, List.getElem?_cons_zero, Option.some.injEq]
        at ha
      simp only [addRetAux, List.getElem?_cons_succ] at hb
      subst ha
      have hfirst := addRetAux_first rest (some x.close) b hb
      simpa using hfirst
    | succ n =>
      simp only [addRetAux, List.getElem?_cons_succ] at ha hb
      exact ih (some x.close) n ha hb

/-- `addRet` always produces the derived-return invariant. -/
lemma addRet_retOk (raw : List RawBar) : retOk (addRet raw) := by
  constructor
  · intro b h
    have := addRetAux_first raw none b h
    simpa using this
  · intro i a b ha hb
    exact addRetAux_consec raw none i a b ha hb

/-- `addRet` keeps the provider's dates in provider order. -/
lemma addRetAux_dates (raw : List RawBar) (prev : Option Rat) :
    (addRetAux prev raw).map Bar.date = raw.map RawBar.date := by
  induction raw generalizing prev with
  | nil => rfl
  | cons x rest ih => simp [addRetAux, ih]

/-- Claim C7: `fetch_prices` fails exactly when all three strategies yield
an empty series, the failure message is always the `ValueError` text, and
that text names the requested symbol and range and carries the retry
guidance. -/
theorem c7_data_unavailable_iff_all_empty
    (ticker : String) (startD endD : Int)
    (p1 p2a p2b : List RawBar) (p3 : Int → Int → List RawBar) :
    (fetch_prices ticker startD endD p1 p2a p2b p3 =
        .error (noDataMsg ticker startD endD) ↔
      method1Bars startD endD p1 = [] ∧ p2a = [] ∧ p2b = [] ∧
        collectChunks p3 startD endD = []) ∧
    (∀ msg, fetch_prices ticker startD endD p1 p2a p2b p3 = .error msg →
      msg = noDataMsg ticker startD endD) ∧
    noDataMsg ticker startD endD =
      noDataMsgHead ticker startD endD ++ retryGuidance := by
  unfold fetch_prices
  split_ifs with h1 h2 h3 h4
  · exact ⟨by simp [h1], fun msg hm => by simp at hm, rfl⟩
  · exact ⟨by simp [h2], fun msg hm => by simp at hm, rfl⟩
  · exact ⟨by simp [h3], fun msg hm => by simp at hm, rfl⟩
  · exact ⟨by simp [h4], fun msg hm => by simp at hm, rfl⟩
  · push_neg at h1 h2 h3 h4
    exact ⟨by simp [h1, h2, h3, h4], fun msg hm => by
      simpa using hm.symm, rfl⟩

/-- Witness for C7: with every provider response empty, `fetch_prices`
raises the `ValueError` naming the symbol and range. -/
theorem c7_data_unavailable_iff_all_empty_witness :
    fetch_prices "SPY" 0 0 [] [] [] (fun _ _ => []) =
      .error (noDataMsg "SPY" 0 0) :=
  (c7_data_unavailable_iff_all_empty "SPY" 0 0 [] [] []
      (fun _ _ => [])).1.mpr
    ⟨rfl, rfl, rfl, by rw [collectChunks]; norm_num⟩

/-- Counterexample to C6 as stated: `fetch_prices` performs no
deduplication or sorting — when the accepted strategy (here the exact-range
download) hands back two bars with the same date, the returned series
keeps both, so its dates are not strictly ascending. -/
theorem c6_counterexample :
    fetch_prices "X" 0 400 [] [⟨5, 10⟩, ⟨5, 12⟩] [] (fun _ _ => []) =
      .ok [⟨5, 10, none⟩, ⟨5, 12, some ((12 : Rat) / 10 - 1)⟩] ∧
    ¬ List.Sorted (· < ·)
      (List.map Bar.date
        [⟨5, 10, none⟩, ⟨5, 12, some ((12 : Rat) / 10 - 1)⟩]) := by
  constructor
  · rfl
  · decide

/-- Claim C6 (amended): whichever strategy succeeds, `fetch_prices`
returns exactly that strategy's bars with the derived `ret` column — `ret`
is missing at index 0 and `ret[i] = close[i]/close[i-1] - 1` positionally
for `i > 0` — and the result's dates are strictly ascending (hence
deduplicated) whenever the accepted provider bars' dates are; the code
itself performs no deduplication or sorting. -/
theorem c6_ret_derivation_and_order
    : (∀ raw : List RawBar, retOk (addRet raw)) ∧
    (∀ raw : List RawBar, List.Sorted (· < ·) (raw.map RawBar.date) →
      List.Sorted (· < ·) ((addRet raw).map Bar.date)) ∧
    (∀ (ticker : String) (startD endD : Int) (p1 p2a p2b : List RawBar)
      (p3 : Int → Int → List RawBar) (l : List Bar),
      fetch_prices ticker startD endD p1 p2a p2b p3 = .ok l →
        l = addRet (method1Bars startD endD p1) ∨ l = addRet p2a ∨
        l = addRet p2b ∨ l = addRet (collectChunks p3 startD endD)) := by
  refine ⟨addRet_retOk, ?_, ?_⟩
  · intro raw hs
    rw [addRet, addRetAux_dates]
    exact hs
  · intro ticker startD endD p1 p2a p2b p3 l h
    unfold fetch_prices at h
    split_ifs at h with h1 h2 h3 h4
    · exact Or.inl (by injection h with h; exact h.symm)
    · exact Or.inr (Or.inl (by injection h with h; exact h.symm))
    · exact Or.inr (Or.inr (Or.inl (by injection h with h; exact h.symm)))
    · exact Or.inr (Or.inr (Or.inr (by injection h with h; exact h.symm)))

/-- Witness for C6 (amended): a sorted provider response stays sorted, and
a concrete fetch result is the accepted strategy's bars. -/
theorem c6_ret_derivation_and_order_witness :
    List.Sorted (· < ·) ((addRet [⟨1, 2⟩, ⟨2, 4⟩]).map Bar.date) ∧
    ([⟨1, 2, none⟩] = addRet (method1Bars 0 1 [⟨1, 2⟩]) ∨
      [(⟨1, 2, none⟩ : Bar)] = addRet [] ∨
      [(⟨1, 2, none⟩ : Bar)] = addRet [] ∨
      [(⟨1, 2, none⟩ : Bar)] = addRet (collectChunks (fun _ _ => []) 0 1)) :=
  ⟨c6_ret_derivation_and_order.2.1 [⟨1, 2⟩, ⟨2, 4⟩] (by decide),
   c6_ret_derivation_and_order.2.2 "X" 0 1 [⟨1, 2⟩] [] [] (fun _ _ => [])
     [⟨1, 2, none⟩] rfl⟩

/-- One row of `df_events` in `run_event_study`: holiday name, event
date, window, and the (possibly `NaN`) cumulative return.  The code keys
groups by the window's label string `"{s}..{e}"`; the label map is
injective, so the model groups by the window pair itself. -/
structure Obs where
  holiday : String
  event_date : Int
  window : Int × Int
  cum_return : Option Rat
deriving DecidableEq

/-- One merged record of the `summary` list.  pandas `agg` `count` and
`grp.count()` both count the non-`NaN` entries; `mean` skips `NaN`s.
`std` and `t_stat` are irrational (square roots), so the model carries the
sample variance `var` (`std = sqrt var`, `NaN` for fewer than two
values); no claim inspects `std`/`t_stat` numerically. -/
structure GroupSummary where
  holiday : String
  window : Int × Int
  count : Nat
  mean : Option Rat
  var : Option Rat
  bootstrap_p : Option Rat
  n : Nat
deriving DecidableEq

/-- The `AnalysisReport` dictionary (the wall-clock `timestamp` field is
outside the model). -/
structure Report where
  symbol : String
  start_date : Int
  end_date : Int
  summary : List GroupSummary
  events : List Obs
deriving DecidableEq

/-- `run_event_study` returns either an `{"error": msg}` dictionary or a
report. -/
inductive RunResult where
  | error (msg : String)
  | report (r : Report)
deriving DecidableEq

/-- The in-range check of the event loop: skip event dates before the
first or after the last fetched bar. -/
def in_range (prices : List Bar) (d : Int) : Bool :=
  match prices.head?, prices.getLast? with
  | some f, some l => decide (f.date ≤ d) && decide (d ≤ l.date)
  | _, _ => false

/-- The `rows` list built by the event loop: for each holiday, each of its
dates inside the fetched range, and each window, one observation. -/
def mk_rows (prices : List Bar) (holidays : List (String × List Int))
    (windows : List (Int × Int)) : List Obs :=
  holidays.flatMap (fun hd =>
    (hd.2.filter (fun d => in_range prices d)).flatMap (fun d =>
      windows.map (fun w =>
        ⟨hd.1, d, w, event_window_return prices d w⟩)))

/-- The rows of one `(holiday, window)` group. -/
def groupObs (rows : List Obs) (h : String) (w : Int × Int) : List Obs :=
  rows.filter (fun o => decide (o.holiday = h) && decide (o.window = w))

/-- The non-`NaN` returns of one group — what pandas `count`, `mean` and
`std` actually aggregate. -/
def nonMissing (rows : List Obs) (h : String) (w : Int × Int) : List Rat :=
  (groupObs rows h w).filterMap Obs.cum_return

/-- pandas sample variance (`std` squared, `ddof = 1`): `NaN` for fewer
than two values. -/
def sampleVar (l : List Rat) : Option Rat :=
  if l.length < 2 then none
  else some ((l.map (fun x => (x - listMean l) ^ 2)).sum /
    ((l.length : Rat) - 1))

/-- The distinct `(holiday, window)` keys of the grouped rows.  pandas
sorts group keys; the model keeps first-appearance order, which no claim
depends on. -/
def group_keys (rows : List Obs) : List (String × (Int × Int)) :=
  (rows.map (fun o => (o.holiday, o.window))).eraseDups

/-- The merged `summary`+`pvals` records of `run_event_study`: one per
group key, with the non-`NaN` count (both as pandas `count` and as `n`),
skipna mean and variance, and the bootstrap p-value over the group's raw
(`NaN`-including) returns with `nboot = 2000`. -/
def summarize (rows : List Obs)
    (sampler : String → Int × Int → Nat → List Nat) : List GroupSummary :=
  (group_keys rows).map (fun k =>
    ⟨k.1, k.2, (nonMissing rows k.1 k.2).length,
      (if (nonMissing rows k.1 k.2).length = 0 then none
        else some (listMean (nonMissing rows k.1 k.2))),
      sampleVar (nonMissing rows k.1 k.2),
      bootstrap_pvals ((groupObs rows k.1 k.2).map Obs.cum_return) 2000
        (sampler k.1 k.2),
      (nonMissing rows k.1 k.2).length⟩)

/-- The invalid-range error message of `run_event_study`. -/
def invalidRangeMsg (sd ed : Int) : String :=
  "Invalid date range: start_date (" ++ toString sd ++
    ") must be before end_date (" ++ toString ed ++ ")"

/-- The empty-price-data error message of `run_event_study`. -/
def noPriceDataMsg (ticker : String) (sd ed : Int) : String :=
  "No price data available for " ++ ticker ++
    " in the specified date range (" ++ toString sd ++ " to " ++
    toString ed ++ "). Please check the symbol and date range."

/-- The no-events error message of `run_event_study`. -/
def noEventsMsg : String := "No events found in the specified date range"

/-- The catch-all wrapper around an exception raised inside
`run_event_study` (in particular the `ValueError` from `fetch_prices`). -/
def runFailMsg (e : String) : String := "Failed to run event study: " ++ e

/-- The body of `run_event_study` after range validation and clamping:
fetch once (a raised `ValueError` is caught by the enclosing block and
wrapped), reject an empty series, build the event rows, reject an empty
row set, else assemble the report (the code uppercases the symbol). -/
def run_core (fetch : Int → Int → Except String (List Bar))
    (ticker : String) (startD endD : Int) (windows : List (Int × Int))
    (holidays : List (String × List Int))
    (sampler : String → Int × Int → Nat → List Nat) : RunResult :=
  match fetch startD endD with
  | .error e => .error (runFailMsg e)
  | .ok prices =>
    if prices = [] then .error (noPriceDataMsg ticker startD endD)
    else if mk_rows prices holidays windows = [] then .error noEventsMsg
    else .report ⟨ticker.toUpper, startD, endD,
      summarize (mk_rows prices holidays windows) sampler,
      mk_rows prices holidays windows⟩

/-- `EventStudyService.run_event_study`, with the acquisition injected as
`fetch`: reject `start_date > end_date` before any acquisition; clamp a
span over 3650 days to the last 10 years (`start = end - 3650`) and
proceed; then run the core. -/
def run_event_study (fetch : Int → Int → Except String (List Bar))
    (ticker : String) (start_date end_date : Int)
    (windows : List (Int × Int)) (holidays : List (String × List Int))
    (sampler : String → Int × Int → Nat → List Nat) : RunResult :=
  if end_date < start_date then
    .error (invalidRangeMsg start_date end_date)
  else if 3650 < end_date - start_date then
    run_core fetch ticker (end_date - 3650) end_date windows holidays
      sampler
  else run_core fetch ticker start_date end_date windows holidays sampler

/-- The summaries of a run (empty for an error result). -/
def reportSummaries : RunResult → List GroupSummary
  | .report r => r.summary
  | .error _ => []

/-- The observations of a run (empty for an error result). -/
def reportEvents : RunResult → List Obs
  | .report r => r.events
  | .error _ => []

/-- The clamped start date of a successful run. -/
def reportStart : RunResult → Option Int
  | .report r => some r.start_date
  | .error _ => none

/-- Whether a run produced a report rather than an error. -/
def isReport : RunResult → Bool
  | .report _ => true
  | .error _ => false

/-- A successful run's summary is `summarize` of its own events. -/
lemma run_core_report_shape
    (fetch : Int → Int → Except String (List Bar)) (ticker : String)
    (startD endD : Int) (windows : List (Int × Int))
    (holidays : List (String × List Int))
    (sampler : String → Int × Int → Nat → List Nat) (r : Report) :
    run_core fetch ticker startD endD windows holidays sampler =
      .report r →
    ∃ rows, r.summary = summarize rows sampler ∧ r.events = rows := by
  unfold run_core
  cases fetch startD endD with
  | error e => intro h; simp at h
  | ok prices =>
    intro h
    dsimp only at h
    split_ifs at h with hp hr
    injection h with h
    exact ⟨mk_rows prices holidays windows, by rw [← h], by rw [← h]⟩

/-- The summaries are in bijection with the group keys: one summary per
distinct `(holiday, window)` pair of the rows. -/
lemma summarize_keys (rows : List Obs)
    (sampler : String → Int × Int → Nat → List Nat) :
    (summarize rows sampler).map (fun s => (s.holiday, s.window)) =
      group_keys rows := by
  unfold summarize
  generalize group_keys rows = ks
  induction ks with
  | nil => rfl
  | cons k ks ih => simpa using ih

/-- Claim C5 (amended): in every report produced by `run_event_study`, a
GroupSummary exists for exactly the `(holiday, window)` pairs having at
least one EventObservation — missing or not (pandas keeps all-`NaN`
groups, with zero counts) — and for every GroupSummary, `count` and `n`
both equal the number of non-missing observations of its pair, and `mean`
is computed over exactly those non-missing observations (missing ones are
excluded, never replaced by zero). -/
theorem c5_group_summary_counts
    (fetch : Int → Int → Except String (List Bar)) (ticker : String)
    (sd ed : Int) (windows : List (Int × Int))
    (holidays : List (String × List Int))
    (sampler : String → Int × Int → Nat → List Nat) (r : Report)
    (h : run_event_study fetch ticker sd ed windows holidays sampler =
      .report r) :
    r.summary.map (fun s => (s.holiday, s.window)) = group_keys r.events ∧
    ∀ s, s ∈ r.summary →
      s.count = (nonMissing r.events s.holiday s.window).length ∧
      s.n = (nonMissing r.events s.holiday s.window).length ∧
      s.mean = (if (nonMissing r.events s.holiday s.window).length = 0
        then none
        else some (listMean (nonMissing r.events s.holiday s.window))) := by
  have hshape : ∃ rows, r.summary = summarize rows sampler ∧
      r.events = rows := by
    unfold run_event_study at h
    split_ifs at h with h1 h2
    · exact run_core_report_shape fetch ticker (ed - 3650) ed windows
        holidays sampler r h
    · exact run_core_report_shape fetch ticker sd ed windows holidays
        sampler r h
  obtain ⟨rows, hsum, hev⟩ := hshape
  rw [hsum, hev]
  constructor
  · exact summarize_keys rows sampler
  · intro s hs
    unfold summarize at hs
    rcases List.mem_map.mp hs with ⟨k, hk, rfl⟩
    exact ⟨rfl, rfl, rfl⟩

/-- Concrete run for C5: one event whose only window falls before the
series, so its single group consists of one missing observation. -/
def c5prices : List Bar := [⟨100, 10, none⟩, ⟨101, 11, none⟩]

/-- Injected acquisition for the C5 run. -/
def c5fetch : Int → Int → Except String (List Bar) := fun _ _ => .ok c5prices

/-- Resampler for the C5 run (never consulted: the group is empty after
dropping `NaN`s). -/
def c5sampler : String → Int × Int → Nat → List Nat := fun _ _ _ => []

/-- The C5 run itself. -/
def c5run : RunResult :=
  run_event_study c5fetch "x" 95 105 [(-5, -5)] [("H", [100])] c5sampler

/-- The report the C5 run produces. -/
def c5report : Report :=
  ⟨"x".toUpper, 95, 105, [⟨"H", (-5, -5), 0, none, none, none, 0⟩],
    [⟨"H", 100, (-5, -5), none⟩]⟩

/-- Counterexample to C5 as stated: the run's report contains a
GroupSummary whose `(holiday, window)` group has zero non-missing
observations — pandas `groupby` keeps all-`NaN` groups (`count = 0`), so
a GroupSummary can exist without any non-missing observation. -/
theorem c5_counterexample :
    (reportSummaries c5run).filter
      (fun s => decide ((nonMissing (reportEvents c5run) s.holiday
        s.window).length = 0)) ≠ [] := by
  decide

/-- Witness for C5 (amended) on the concrete run. -/
theorem c5_group_summary_counts_witness :
    c5report.summary.map (fun s => (s.holiday, s.window)) =
      group_keys c5report.events :=
  (c5_group_summary_counts c5fetch "x" 95 105 [(-5, -5)] [("H", [100])]
    c5sampler c5report rfl).1

/-- Claim C9 (amended): `run_event_study` rejects `start_date > end_date`
before any acquisition — it returns the invalid-range error and its result
does not depend on the provider — while a span exceeding 3650 days is not
rejected: the start date is clamped to `end_date - 3650` and the run
proceeds (calling the provider with the clamped range). -/
theorem c9_range_validation
    (fetch fetch2 : Int → Int → Except String (List Bar))
    (ticker : String) (sd ed : Int) (windows : List (Int × Int))
    (holidays : List (String × List Int))
    (sampler : String → Int × Int → Nat → List Nat) :
    (ed < sd →
      run_event_study fetch ticker sd ed windows holidays sampler =
        .error (invalidRangeMsg sd ed) ∧
      run_event_study fetch ticker sd ed windows holidays sampler =
        run_event_study fetch2 ticker sd ed windows holidays sampler) ∧
    (sd ≤ ed → 3650 < ed - sd →
      run_event_study fetch ticker sd ed windows holidays sampler =
        run_event_study fetch ticker (ed - 3650) ed windows holidays
          sampler) := by
  constructor
  · intro hlt
    unfold run_event_study
    rw [if_pos hlt]
    exact ⟨rfl, by rw [if_pos hlt]⟩
  · intro hle hspan
    unfold run_event_study
    rw [if_neg (by omega), if_pos hspan, if_neg (by omega),
      if_neg (by omega)]

/-- Concrete series for the C9 run (dates near the end of the clamped
range). -/
def c9prices : List Bar := [⟨3998, 10, none⟩, ⟨3999, 11, none⟩]

/-- The C9 run: a 4000-day request, which exceeds the 3650-day cap. -/
def c9run : RunResult :=
  run_event_study (fun _ _ => .ok c9prices) "x" 0 4000 [(-5, -5)]
    [("H", [3999])] (fun _ _ _ => [])

/-- Counterexample to C9 as stated: a request whose span exceeds the
configured maximum is not rejected — the run returns a report (start date
clamped to `4000 - 3650 = 350`), and the result depends on the provider,
so acquisition I/O does happen. -/
theorem c9_counterexample :
    (3650 : Int) < 4000 - 0 ∧
    isReport c9run = true ∧
    reportStart c9run = some 350 ∧
    reportEvents c9run = [⟨"H", 3999, (-5, -5), none⟩] ∧
    run_event_study (fun _ _ => .error "boom") "x" 0 4000 [(-5, -5)]
      [("H", [3999])] (fun _ _ _ => []) = .error (runFailMsg "boom") := by
  refine ⟨by omega, ?_, ?_, ?_, ?_⟩ <;> decide

/-- Witness for C9 (amended) at concrete ranges. -/
theorem c9_range_validation_witness :
    run_event_study (fun _ _ => .error "e") "x" 5 3 [] []
      (fun _ _ _ => []) = .error (invalidRangeMsg 5 3) ∧
    run_event_study (fun _ _ => .error "e") "x" 0 4000 [] []
      (fun _ _ _ => []) =
      run_event_study (fun _ _ => .error "e") "x" 350 4000 [] []
        (fun _ _ _ => []) :=
  ⟨((c9_range_validation (fun _ _ => .error "e") (fun _ _ => .error "e")
      "x" 5 3 [] [] (fun _ _ _ => [])).1 (by omega)).1,
   (c9_range_validation (fun _ _ => .error "e") (fun _ _ => .error "e")
      "x" 0 4000 [] [] (fun _ _ _ => [])).2 (by omega) (by omega)⟩

end EventStudy
